import Mathlib

/-!
# Verification of `ttp.py`, a terminal typing-practice tool

This file gives a shallow embedding of the core logic of `ttp.py`:

* the pagination loop in `TypingExercise.run` (lines 57-89), which splits the
  reference text into pages and records each page's absolute character-offset
  range;
* the input loop in `TypingExercise.run` (lines 99-140): page advancing, the
  ESC / backspace / typed-character dispatch, and the completion result;
* the statistics arithmetic of `draw_header` (lines 161-169) and
  `save_record` (lines 249-259), where Python's raising `ZeroDivisionError`
  is modelled by an `Option` result (`none` = the division raised).

Strings are modelled as `List Char`; the reference text is the join of the
file's lines (terminators kept, exactly as `splitlines(keepends=True)`
produces them).  Key codes are `Nat` (curses `getch` values); `chr` is
`Char.ofNat`.
-/

/-- Result of `TypingExercise.run`: the Python method returns `True` when the
whole text has been judged and `False` on ESC.  `outOfKeys` marks the point
where the Python loop would block in `getch` waiting for more input; it has
no Python counterpart and arises only when a modelled key list is exhausted
mid-session. -/
inductive RunResult where
  | completed
  | cancelled
  | outOfKeys
deriving DecidableEq

/-- The mutable state of a `TypingExercise` object (the fields touched by the
input loop).  `end_time_set` abstracts `self.end_time` being assigned. -/
structure Exercise where
  text : List Char
  total_chars : Nat
  current_pos : Nat
  correct_chars : Nat
  wrong_chars : Nat
  user_input : List Char
  current_page : Nat
  pages : List (List Char)
  page_indices : List (Nat × Nat)
  total_pages : Nat
  end_time_set : Bool
deriving DecidableEq

/-- `line.rstrip('\n')`: drop every trailing newline character. -/
def rstripNewlines (line : List Char) : List Char :=
  (line.reverse.dropWhile fun c => c = '\n').reverse

/-- `lines_needed = (len(content) + width - 1) // width`, bumped to 1 when 0
(ttp.py lines 65-68). -/
def linesNeeded (width : Nat) (line : List Char) : Nat :=
  let n := ((rstripNewlines line).length + width - 1) / width
  if n = 0 then 1 else n

/-- The loop state of the pagination pass (ttp.py lines 58-62). -/
structure PagState where
  pages : List (List Char)
  page_indices : List (Nat × Nat)
  current_page : List (List Char)
  current_chars : Nat
  line_count : Nat
deriving DecidableEq

def pagInit : PagState :=
  { pages := [], page_indices := [], current_page := [], current_chars := 0, line_count := 0 }

/-- One iteration of the `for line in self.lines` pagination loop
(ttp.py lines 64-81). -/
def pagStep (width plc : Nat) (s : PagState) (line : List Char) : PagState :=
  if plc < s.line_count + linesNeeded width line ∧ 0 < s.line_count then
    { pages := s.pages ++ [s.current_page.flatten]
      page_indices :=
        s.page_indices ++ [(s.current_chars - s.current_page.flatten.length, s.current_chars)]
      current_page := [line]
      current_chars := s.current_chars + line.length
      line_count := linesNeeded width line }
  else
    { s with
      current_page := s.current_page ++ [line]
      current_chars := s.current_chars + line.length
      line_count := s.line_count + linesNeeded width line }

def pagRun (width plc : Nat) : List (List Char) → PagState → PagState
  | [], s => s
  | line :: rest, s => pagRun width plc rest (pagStep width plc s line)

/-- Flushing the final page (ttp.py lines 84-87). -/
def pagFinish (s : PagState) : List (List Char) × List (Nat × Nat) :=
  if s.current_page = [] then (s.pages, s.page_indices)
  else
    (s.pages ++ [s.current_page.flatten],
     s.page_indices ++ [(s.current_chars - s.current_page.flatten.length, s.current_chars)])

/-- The whole pagination pass: pages plus their `(start, end)` offset ranges. -/
def paginate (width plc : Nat) (lines : List (List Char)) :
    List (List Char) × List (Nat × Nat) :=
  pagFinish (pagRun width plc lines pagInit)

/-- `self.page_line_count = max(1, height - 7)` (ttp.py line 55). -/
def page_line_count (height : Nat) : Nat := max 1 (height - 7)

/-- The typed-character branch of the input loop (ttp.py lines 124-131):
judge `c` against `text[current_pos]`, bump one counter, append to
`user_input`, advance `current_pos`.  The loop only reaches this branch with
`current_pos < total_chars`, so the `getD` default is never consulted on a
reachable call. -/
def type_char (e : Exercise) (c : Char) : Exercise :=
  if c = e.text.getD e.current_pos (Char.ofNat 0) then
    { e with
      user_input := e.user_input ++ [c]
      correct_chars := e.correct_chars + 1
      current_pos := e.current_pos + 1 }
  else
    { e with
      user_input := e.user_input ++ [c]
      wrong_chars := e.wrong_chars + 1
      current_pos := e.current_pos + 1 }

/-- The backspace branch (ttp.py lines 120-123): `if self.user_input:` pop
the last typed character and decrement `current_pos`.  Neither counter is
touched. -/
def backspace (e : Exercise) : Exercise :=
  if e.user_input.isEmpty then e
  else
    { e with
      user_input := e.user_input.dropLast
      current_pos := e.current_pos - 1 }

/-- curses `KEY_BACKSPACE` (0o407). -/
def KEY_BACKSPACE : Nat := 263

/-- Key dispatch after the ESC test (ttp.py lines 120-131): backspace keys go
to `backspace`, every other key is converted with `chr` and typed. -/
def handleKey (e : Exercise) (k : Nat) : Exercise :=
  if k = KEY_BACKSPACE ∨ k = 127 then backspace e
  else type_char e (Char.ofNat k)

/-- `self.page_indices[self.current_page][1]`, the end offset of the page on
display. -/
def pageEnd (e : Exercise) : Nat :=
  (e.page_indices.getD e.current_page (0, 0)).2

/-- The `continue`-driven page-advance loop at the top of each iteration
(ttp.py lines 101-108): while `current_pos` has reached the current page's
end and a later page exists, move forward one page.  `fuel` bounds the
number of advances; called with `fuel = total_pages` it never runs out
before the condition fails. -/
def pageStep : Nat → Exercise → Exercise
  | 0, e => e
  | fuel + 1, e =>
    if pageEnd e ≤ e.current_pos ∧ e.current_page < e.total_pages - 1 then
      pageStep fuel { e with current_page := e.current_page + 1 }
    else e

/-- Everything the loop does before asking for a key: the `while` guard
(line 99), page advancing, and the `break` on the last page (line 110).
Returns the updated state and `true` when the loop exits (completion,
`end_time` set at line 139). -/
def preKey (e : Exercise) : Exercise × Bool :=
  if e.current_pos < e.total_chars then
    if pageEnd (pageStep e.total_pages e) ≤ (pageStep e.total_pages e).current_pos then
      ({ pageStep e.total_pages e with end_time_set := true }, true)
    else (pageStep e.total_pages e, false)
  else ({ e with end_time_set := true }, true)

/-- The input loop of `TypingExercise.run` (ttp.py lines 99-140), driven by a
finite list of key codes.  ESC (27) sets `end_time` and returns `False`
(line 115-117), modelled by `RunResult.cancelled`; falling out of the loop
sets `end_time` and returns `True` (`RunResult.completed`). -/
def runLoop : List Nat → Exercise → Exercise × RunResult
  | [], e =>
    if (preKey e).2 then ((preKey e).1, RunResult.completed)
    else ((preKey e).1, RunResult.outOfKeys)
  | k :: rest, e =>
    if (preKey e).2 then ((preKey e).1, RunResult.completed)
    else if k = 27 then ({ (preKey e).1 with end_time_set := true }, RunResult.cancelled)
    else runLoop rest (handleKey (preKey e).1 k)

/-- The state of a `TypingExercise` right after `__init__` and the pagination
pass, for a text given as its `splitlines(keepends=True)` lines and a
terminal of the given width and height. -/
def mkExercise (lines : List (List Char)) (width height : Nat) : Exercise :=
  { text := lines.flatten
    total_chars := lines.flatten.length
    current_pos := 0
    correct_chars := 0
    wrong_chars := 0
    user_input := []
    current_page := 0
    pages := (paginate width (page_line_count height) lines).1
    page_indices := (paginate width (page_line_count height) lines).2
    total_pages := (paginate width (page_line_count height) lines).1.length
    end_time_set := false }

/-- Session events, the spec's `type_char` / `backspace` transitions. -/
inductive Ev where
  | typed (c : Char)
  | erase
deriving DecidableEq

def applyEv (e : Exercise) : Ev → Exercise
  | Ev.typed c => type_char e c
  | Ev.erase => backspace e

def applyEvs : List Ev → Exercise → Exercise
  | [], e => e
  | ev :: rest, e => applyEvs rest (applyEv e ev)

def isTypedEv : Ev → Bool
  | Ev.typed _ => true
  | Ev.erase => false

/-- Number of `type_char` events in a sequence. -/
def countTyped (evs : List Ev) : Nat := (evs.filter isTypedEv).length

/-- Python division, which raises `ZeroDivisionError` on a zero denominator:
`none` models the raise. -/
def pyDiv (a b : ℚ) : Option ℚ :=
  if b = 0 then none else some (a / b)

/-- The statistics block of `draw_header` (ttp.py lines 165-168).  Outer
`none` = a `ZeroDivisionError` escaped; `some none` = the stats line was
skipped because `current_pos == 0`; `some (some (speed, accuracy))` = the
displayed numbers.  Mirrors
`speed = (current_pos / 5) / (elapsed / 60)` and
`accuracy = correct_chars / current_pos * 100 if current_pos > 0 else 0`. -/
def draw_header_stats (current_pos correct_chars : Nat) (elapsed : ℚ) :
    Option (Option (ℚ × ℚ)) :=
  if 0 < current_pos then
    match pyDiv ((current_pos : ℚ) / 5) (elapsed / 60) with
    | none => none
    | some speed =>
      match
        (if 0 < current_pos then (pyDiv (correct_chars : ℚ) (current_pos : ℚ)).map (fun a => a * 100)
         else some 0) with
      | none => none
      | some accuracy => some (some (speed, accuracy))
  else some none

/-- The `accuracy` and `speed_wpm` fields of `save_record` (ttp.py
lines 257-258): accuracy is guarded by `total_chars > 0`, speed is
`(total_chars / 5) / (duration / 60)` with no guard, so `none` (a raise)
when `duration = 0`. -/
def save_record_stats (total_chars correct_chars : Nat) (duration : ℚ) :
    Option (ℚ × ℚ) :=
  match pyDiv ((total_chars : ℚ) / 5) (duration / 60) with
  | none => none
  | some speed =>
    some ((if 0 < total_chars then (correct_chars : ℚ) / (total_chars : ℚ) * 100 else 0), speed)

/-- The `accuracy` field of the Record built by `save_record` (line 257). -/
def record_accuracy (e : Exercise) : ℚ :=
  if 0 < e.total_chars then (e.correct_chars : ℚ) / (e.total_chars : ℚ) * 100 else 0

/-- `main` (ttp.py lines 307-313): a Record is produced (via `save_record`)
exactly when `run` returned `True`; on cancellation nothing is persisted. -/
def main_record (keys : List Nat) (e : Exercise) (duration : ℚ) : Option (ℚ × ℚ) :=
  match (runLoop keys e).2 with
  | RunResult.completed =>
    save_record_stats (runLoop keys e).1.total_chars (runLoop keys e).1.correct_chars duration
  | _ => none

/-- `segsFrom a pages rs`: the ranges `rs` are exactly the contiguous,
non-overlapping partition of `[a, a + |pages.flatten|)` whose i-th segment has
the length of the i-th page. -/
def segsFrom : Nat → List (List Char) → List (Nat × Nat) → Prop
  | _, [], [] => True
  | a, p :: ps, r :: rs => r.1 = a ∧ r.2 = a + p.length ∧ segsFrom r.2 ps rs
  | _, _, _ => False

/-- The pagination guarantee claimed by the spec: contiguous non-overlapping
ranges starting at 0 and ending at `total_chars`, whose text slices
concatenate back to the original text. -/
def paginateOK (lines pages : List (List Char)) (rs : List (Nat × Nat)) : Prop :=
  segsFrom 0 pages rs ∧
  pages.flatten = lines.flatten ∧
  pages.length = rs.length ∧
  rs ≠ [] ∧
  (∀ h : rs ≠ [], (rs.head h).1 = 0 ∧ (rs.getLast h).2 = lines.flatten.length) ∧
  (∀ i, ∀ hi : i < pages.length, ∀ hj : i < rs.length,
    pages.get ⟨i, hi⟩ =
      (lines.flatten.drop (rs.get ⟨i, hj⟩).1).take
        ((rs.get ⟨i, hj⟩).2 - (rs.get ⟨i, hj⟩).1))

/-! ## Basic lemmas about the session transitions -/

theorem type_char_current_pos (e : Exercise) (c : Char) :
    (type_char e c).current_pos = e.current_pos + 1 := by
  unfold type_char; split <;> rfl

theorem type_char_user_input (e : Exercise) (c : Char) :
    (type_char e c).user_input = e.user_input ++ [c] := by
  unfold type_char; split <;> rfl

theorem type_char_current_page (e : Exercise) (c : Char) :
    (type_char e c).current_page = e.current_page := by
  unfold type_char; split <;> rfl

theorem type_char_counter_sum (e : Exercise) (c : Char) :
    (type_char e c).correct_chars + (type_char e c).wrong_chars
      = e.correct_chars + e.wrong_chars + 1 := by
  unfold type_char; split <;> simp <;> omega

theorem backspace_counters (e : Exercise) :
    (backspace e).correct_chars = e.correct_chars ∧
    (backspace e).wrong_chars = e.wrong_chars := by
  unfold backspace; split <;> exact ⟨rfl, rfl⟩

theorem backspace_current_page (e : Exercise) :
    (backspace e).current_page = e.current_page := by
  unfold backspace; split <;> rfl

theorem countTyped_cons (ev : Ev) (evs : List Ev) :
    countTyped (ev :: evs) = (if isTypedEv ev then 1 else 0) + countTyped evs := by
  unfold countTyped
  cases h : isTypedEv ev <;> simp [List.filter, h, Nat.add_comm]

theorem applyEv_counter_sum (e : Exercise) (ev : Ev) :
    (applyEv e ev).correct_chars + (applyEv e ev).wrong_chars
      = e.correct_chars + e.wrong_chars + (if isTypedEv ev then 1 else 0) := by
  cases ev with
  | typed c => simpa [applyEv, isTypedEv] using type_char_counter_sum e c
  | erase =>
    simp [applyEv, isTypedEv, (backspace_counters e).1, (backspace_counters e).2]

theorem applyEvs_counter_sum (evs : List Ev) (e : Exercise) :
    (applyEvs evs e).correct_chars + (applyEvs evs e).wrong_chars
      = e.correct_chars + e.wrong_chars + countTyped evs := by
  induction evs generalizing e with
  | nil => simp [applyEvs, countTyped]
  | cons ev rest ih =>
    rw [applyEvs, ih, applyEv_counter_sum, countTyped_cons]
    omega

theorem applyEvs_typed_only_invariant (evs : List Ev) (e : Exercise)
    (hsum : e.correct_chars + e.wrong_chars = e.current_pos)
    (hall : ∀ ev ∈ evs, isTypedEv ev = true) :
    (applyEvs evs e).correct_chars + (applyEvs evs e).wrong_chars
      = (applyEvs evs e).current_pos := by
  induction evs generalizing e with
  | nil => simpa [applyEvs] using hsum
  | cons ev rest ih =>
    rw [applyEvs]
    apply ih
    · cases ev with
      | typed c =>
        rw [applyEv, type_char_counter_sum, type_char_current_pos, hsum]
      | erase =>
        exact absurd (hall Ev.erase (List.mem_cons_self _ _)) (by simp [isTypedEv])
    · intro x hx
      exact hall x (List.mem_cons_of_mem _ hx)

/-! ## Claims C1, C2: counters versus backspace

In ttp.py the backspace branch (lines 120-123) pops `user_input` and
decrements `current_pos` but touches neither `correct_chars` nor
`wrong_chars`, so the spec's invariant `correct + wrong == position` breaks
at the first backspace and backspace does not restore the counters. -/

/-- C1 (counterexample): reference text `"ab"`; type `'a'` (so position is 1,
not 0) and then backspace.  The backspace is not applied at position 0, yet
afterwards `correct_chars + wrong_chars = 1 ≠ 0 = current_pos`: the claimed
invariant fails. -/
theorem counters_invariant_fails_after_backspace :
    (applyEvs [Ev.typed 'a'] (mkExercise [['a', 'b']] 80 24)).current_pos ≠ 0 ∧
    ¬ ((applyEvs [Ev.typed 'a', Ev.erase] (mkExercise [['a', 'b']] 80 24)).correct_chars
        + (applyEvs [Ev.typed 'a', Ev.erase] (mkExercise [['a', 'b']] 80 24)).wrong_chars
        = (applyEvs [Ev.typed 'a', Ev.erase] (mkExercise [['a', 'b']] 80 24)).current_pos) := by
  decide

/-- C1 (amended): `correct_chars + wrong_chars` equals the number of
`type_char` events processed — each `type_char` increments exactly one
counter together with position, but `backspace` decrements position without
decrementing either counter, so the invariant
`correct_count + wrong_count == position` holds after every event exactly for
sequences containing no backspace. -/
theorem counters_count_typed_events (lines : List (List Char)) (width height : Nat)
    (evs : List Ev) :
    ((applyEvs evs (mkExercise lines width height)).correct_chars
      + (applyEvs evs (mkExercise lines width height)).wrong_chars = countTyped evs) ∧
    ((∀ ev ∈ evs, isTypedEv ev = true) →
      (applyEvs evs (mkExercise lines width height)).correct_chars
        + (applyEvs evs (mkExercise lines width height)).wrong_chars
        = (applyEvs evs (mkExercise lines width height)).current_pos) := by
  constructor
  · simpa [mkExercise] using applyEvs_counter_sum evs (mkExercise lines width height)
  · intro hall
    exact applyEvs_typed_only_invariant evs _ (by simp [mkExercise]) hall

theorem counters_count_typed_events_witness :
    ((applyEvs [Ev.typed 'a', Ev.typed 'x'] (mkExercise [['a', 'b']] 80 24)).correct_chars
      + (applyEvs [Ev.typed 'a', Ev.typed 'x'] (mkExercise [['a', 'b']] 80 24)).wrong_chars
      = countTyped [Ev.typed 'a', Ev.typed 'x']) ∧
    (applyEvs [Ev.typed 'a', Ev.typed 'x'] (mkExercise [['a', 'b']] 80 24)).correct_chars
      + (applyEvs [Ev.typed 'a', Ev.typed 'x'] (mkExercise [['a', 'b']] 80 24)).wrong_chars
      = (applyEvs [Ev.typed 'a', Ev.typed 'x'] (mkExercise [['a', 'b']] 80 24)).current_pos :=
  ⟨(counters_count_typed_events [['a', 'b']] 80 24 [Ev.typed 'a', Ev.typed 'x']).1,
   (counters_count_typed_events [['a', 'b']] 80 24 [Ev.typed 'a', Ev.typed 'x']).2
     (by decide)⟩

/-- C2 (counterexample): reference text `"a"`, type `'a'` then backspace.
`correct_chars` stays at 1 instead of returning to its pre-`type_char`
value 0. -/
theorem backspace_does_not_restore_correct_count :
    (backspace (type_char (mkExercise [['a']] 80 24) 'a')).correct_chars ≠
      (mkExercise [['a']] 80 24).correct_chars := by
  decide

/-- C2 (amended): `backspace()` immediately after `type_char(c)` restores
`position` and `typed` to their exact pre-`type_char` values, but
`correct_count` and `wrong_count` keep their post-`type_char` values: the
counter that `type_char` incremented for the slot is not decremented. -/
theorem backspace_after_type_char (e : Exercise) (c : Char) :
    (backspace (type_char e c)).current_pos = e.current_pos ∧
    (backspace (type_char e c)).user_input = e.user_input ∧
    (backspace (type_char e c)).correct_chars = (type_char e c).correct_chars ∧
    (backspace (type_char e c)).wrong_chars = (type_char e c).wrong_chars ∧
    (type_char e c).correct_chars + (type_char e c).wrong_chars
      = e.correct_chars + e.wrong_chars + 1 := by
  have hin := type_char_user_input e c
  have hpos := type_char_current_pos e c
  refine ⟨?_, ?_, (backspace_counters _).1, (backspace_counters _).2,
    type_char_counter_sum e c⟩
  · simp [backspace, hin, hpos]
  · simp [backspace, hin]

/-! ## Claim C7: `type_char` semantics and Scenario A -/

/-- C7 (confirmed): with `position < total_chars`, `type_char(c)` increments
`correct_chars` when `c` matches `reference[position]` and `wrong_chars`
otherwise, appends `c` to `typed`, and advances `position`; and Scenario A
(reference `"abc"`, keys `'a'`,`'x'`,`'c'`) ends with `correct_chars = 2`,
`wrong_chars = 1`, `position = 3` and completion signalled. -/
theorem type_char_spec (e : Exercise) (c : Char) (h : e.current_pos < e.text.length) :
    ((type_char e c).correct_chars =
      if c = e.text.get ⟨e.current_pos, h⟩ then e.correct_chars + 1 else e.correct_chars) ∧
    ((type_char e c).wrong_chars =
      if c = e.text.get ⟨e.current_pos, h⟩ then e.wrong_chars else e.wrong_chars + 1) ∧
    (type_char e c).user_input = e.user_input ++ [c] ∧
    (type_char e c).current_pos = e.current_pos + 1 ∧
    (runLoop [97, 120, 99] (mkExercise [['a', 'b', 'c']] 80 24)).1.correct_chars = 2 ∧
    (runLoop [97, 120, 99] (mkExercise [['a', 'b', 'c']] 80 24)).1.wrong_chars = 1 ∧
    (runLoop [97, 120, 99] (mkExercise [['a', 'b', 'c']] 80 24)).1.current_pos = 3 ∧
    (runLoop [97, 120, 99] (mkExercise [['a', 'b', 'c']] 80 24)).2 = RunResult.completed := by
  have hd : e.text.getD e.current_pos (Char.ofNat 0) = e.text.get ⟨e.current_pos, h⟩ := by
    rw [List.getD_eq_getElem _ _ h]
    simp
  refine ⟨?_, ?_, type_char_user_input e c, type_char_current_pos e c,
    by decide, by decide, by decide, by decide⟩
  · unfold type_char
    rw [hd]
    split <;> rfl
  · unfold type_char
    rw [hd]
    split <;> rfl

theorem type_char_spec_witness :
    (mkExercise [['a', 'b', 'c']] 80 24).current_pos
      < (mkExercise [['a', 'b', 'c']] 80 24).text.length ∧
    (type_char (mkExercise [['a', 'b', 'c']] 80 24) 'a').correct_chars = 1 := by
  refine ⟨by decide, ?_⟩
  have h : (mkExercise [['a', 'b', 'c']] 80 24).current_pos
      < (mkExercise [['a', 'b', 'c']] 80 24).text.length := by decide
  have hc := (type_char_spec (mkExercise [['a', 'b', 'c']] 80 24) 'a' h).1
  have hg : (mkExercise [['a', 'b', 'c']] 80 24).text.get
      ⟨(mkExercise [['a', 'b', 'c']] 80 24).current_pos, h⟩ = 'a' := rfl
  rw [hc, hg]
  decide

/-! ## Claim C9: backspace at position 0 -/

/-- C9 (confirmed): in any session state satisfying the data-model invariant
`len(typed) == position`, a backspace at `position = 0` leaves the state
completely unchanged (the `if self.user_input:` guard fails). -/
theorem backspace_at_position_zero_noop (e : Exercise)
    (hlen : e.user_input.length = e.current_pos) (h0 : e.current_pos = 0) :
    backspace e = e := by
  have hnil : e.user_input = [] := List.eq_nil_of_length_eq_zero (by rw [hlen, h0])
  simp [backspace, hnil]

theorem backspace_at_position_zero_noop_witness :
    (mkExercise [['a', 'b']] 80 24).user_input.length
      = (mkExercise [['a', 'b']] 80 24).current_pos ∧
    (mkExercise [['a', 'b']] 80 24).current_pos = 0 ∧
    backspace (mkExercise [['a', 'b']] 80 24) = mkExercise [['a', 'b']] 80 24 :=
  ⟨by decide, by decide,
   backspace_at_position_zero_noop (mkExercise [['a', 'b']] 80 24) (by decide) (by decide)⟩

/-! ## Claim C10: accuracy above 100% -/

/-- C10 (confirmed): typing the first character of `"abc"` correctly,
backspacing it, then typing `"abc"` correctly completes the session with
`correct_chars = 4` while `total_chars = 3`, so the Record's accuracy
`correct_chars / total_chars * 100 = 400/3` strictly exceeds 100. -/
theorem completed_record_accuracy_exceeds_100 :
    ∃ keys : List Nat,
      (runLoop keys (mkExercise [['a', 'b', 'c']] 80 24)).2 = RunResult.completed ∧
      100 < record_accuracy (runLoop keys (mkExercise [['a', 'b', 'c']] 80 24)).1 := by
  refine ⟨[97, 263, 97, 98, 99], by decide, ?_⟩
  have h1 : (runLoop [97, 263, 97, 98, 99]
      (mkExercise [['a', 'b', 'c']] 80 24)).1.correct_chars = 4 := by decide
  have h2 : (runLoop [97, 263, 97, 98, 99]
      (mkExercise [['a', 'b', 'c']] 80 24)).1.total_chars = 3 := by decide
  unfold record_accuracy
  rw [h1, h2]
  norm_num

/-! ## Claim C6: unrecognized input events -/

/-- C6 (counterexample): key code 259 (curses `KEY_UP`, an arrow key — not a
control key the loop recognizes and not a renderable typed character) is not
ignored: the loop converts it with `chr` and judges it, so position advances
to 1 and `wrong_chars` becomes 1 on reference `"abc"`. -/
theorem arrow_key_not_ignored :
    (runLoop [259] (mkExercise [['a', 'b', 'c']] 80 24)).1.current_pos ≠
      (mkExercise [['a', 'b', 'c']] 80 24).current_pos ∧
    (runLoop [259] (mkExercise [['a', 'b', 'c']] 80 24)).1.wrong_chars = 1 := by
  decide

/-- C6 (amended): every key other than ESC (27), `KEY_BACKSPACE` (263) and
127 — including non-renderable keypad codes — is converted with `chr` and
passed to `type_char`: `position` advances by 1 and exactly one counter is
incremented.  Unrecognized events are not ignored. -/
theorem unrecognized_key_is_typed (e : Exercise) (k : Nat)
    (h1 : k ≠ KEY_BACKSPACE) (h2 : k ≠ 127) :
    (handleKey e k).current_pos = e.current_pos + 1 ∧
    (handleKey e k).user_input = e.user_input ++ [Char.ofNat k] ∧
    (handleKey e k).correct_chars + (handleKey e k).wrong_chars
      = e.correct_chars + e.wrong_chars + 1 := by
  have hcond : ¬ (k = KEY_BACKSPACE ∨ k = 127) := by
    rintro (rfl | rfl)
    · exact h1 rfl
    · exact h2 rfl
  simp only [handleKey, if_neg hcond]
  exact ⟨type_char_current_pos _ _, type_char_user_input _ _, type_char_counter_sum _ _⟩

theorem unrecognized_key_is_typed_witness :
    (259 : Nat) ≠ KEY_BACKSPACE ∧ (259 : Nat) ≠ 127 ∧
    (handleKey (mkExercise [['a', 'b', 'c']] 80 24) 259).current_pos
      = (mkExercise [['a', 'b', 'c']] 80 24).current_pos + 1 :=
  ⟨by decide, by decide,
   (unrecognized_key_is_typed (mkExercise [['a', 'b', 'c']] 80 24) 259
     (by decide) (by decide)).1⟩

/-! ## Claim C4: page navigation on backspace across a page boundary

The loop's only page logic (ttp.py lines 101-108) fires when `current_pos`
reaches the current page's end; nothing ever decreases `current_page`, so a
backspace that takes `current_pos` below the current page's start leaves the
later page on display. -/

theorem pageStep_page_mono (fuel : Nat) (e : Exercise) :
    e.current_page ≤ (pageStep fuel e).current_page := by
  induction fuel generalizing e with
  | zero => exact Nat.le_refl _
  | succ fuel ih =>
    unfold pageStep
    split
    · exact Nat.le_trans (Nat.le_succ _) (ih { e with current_page := e.current_page + 1 })
    · exact Nat.le_refl _

theorem preKey_page_mono (e : Exercise) :
    e.current_page ≤ (preKey e).1.current_page := by
  unfold preKey
  split
  · split
    · exact pageStep_page_mono e.total_pages e
    · exact pageStep_page_mono e.total_pages e
  · exact Nat.le_refl _

theorem handleKey_current_page (e : Exercise) (k : Nat) :
    (handleKey e k).current_page = e.current_page := by
  unfold handleKey
  split
  · exact backspace_current_page e
  · exact type_char_current_page e _

theorem runLoop_page_mono (keys : List Nat) (e : Exercise) :
    e.current_page ≤ (runLoop keys e).1.current_page := by
  induction keys generalizing e with
  | nil =>
    unfold runLoop
    split
    · exact preKey_page_mono e
    · exact preKey_page_mono e
  | cons k rest ih =>
    unfold runLoop
    split
    · exact preKey_page_mono e
    · split
      · exact preKey_page_mono e
      · calc e.current_page ≤ (preKey e).1.current_page := preKey_page_mono e
          _ = (handleKey (preKey e).1 k).current_page :=
              (handleKey_current_page (preKey e).1 k).symm
          _ ≤ (runLoop rest (handleKey (preKey e).1 k)).1.current_page := ih _

/-- C4 (counterexample): reference `"aa\nbb\n"` on a terminal of height 8
(one text row per page), so the pages cover `[0,3)` and `[3,6)`.  Typing
`'a'`,`'a'`,`'\n'` moves to page 1; the following backspace leaves
`current_pos = 2`, strictly below page 1's start offset 3, yet
`current_page` stays 1 — the controller does not navigate back to the page
containing `position`. -/
theorem backspace_below_page_start_keeps_page :
    (runLoop [97, 97, 10, 263] (mkExercise [['a', 'a', '\n'], ['b', 'b', '\n']] 80 8)).1.current_pos
      = 2 ∧
    ((runLoop [97, 97, 10, 263]
        (mkExercise [['a', 'a', '\n'], ['b', 'b', '\n']] 80 8)).1.page_indices.getD 1 (0, 0)).1
      = 3 ∧
    (runLoop [97, 97, 10, 263] (mkExercise [['a', 'a', '\n'], ['b', 'b', '\n']] 80 8)).1.current_page
      = 1 := by
  decide

/-- C4 (amended): page navigation is forward-only.  A backspace never changes
`current_page`, and across any run of the input loop `current_page` never
decreases; so when a backspace takes `position` below the current page's
start offset, the controller keeps displaying the later page instead of
recomputing `current_page_index` backwards. -/
theorem page_navigation_forward_only :
    (∀ e : Exercise, (backspace e).current_page = e.current_page) ∧
    (∀ (keys : List Nat) (e : Exercise),
      e.current_page ≤ (runLoop keys e).1.current_page) :=
  ⟨backspace_current_page, runLoop_page_mono⟩

/-! ## Claim C8: cancellation produces no Record -/

theorem runLoop_cancelled_end_time (keys : List Nat) (e : Exercise)
    (h : (runLoop keys e).2 = RunResult.cancelled) :
    (runLoop keys e).1.end_time_set = true := by
  induction keys generalizing e with
  | nil =>
    unfold runLoop at h
    split at h <;> simp_all
  | cons k rest ih =>
    unfold runLoop at h ⊢
    split at h
    · simp_all
    · split at h
      · simp_all
      · rename_i h1 h2
        rw [if_neg h1, if_neg h2]
        exact ih _ h

/-- C8 (confirmed): whenever the run ends as `cancelled` (ESC pressed while
the loop was still accepting input, hence `position < total_chars`),
`end_time` is set and `main` produces and persists no Record; and in the
concrete mid-session Scenario E (reference `"abc"`, keys `'a'`, ESC) the run
reports `cancelled`, which is distinct from `completed`. -/
theorem cancellation_produces_no_record :
    (∀ (keys : List Nat) (e : Exercise) (d : ℚ),
      (runLoop keys e).2 = RunResult.cancelled →
      (runLoop keys e).1.end_time_set = true ∧ main_record keys e d = none) ∧
    (runLoop [97, 27] (mkExercise [['a', 'b', 'c']] 80 24)).2 = RunResult.cancelled ∧
    (runLoop [97, 27] (mkExercise [['a', 'b', 'c']] 80 24)).1.current_pos
      < (mkExercise [['a', 'b', 'c']] 80 24).total_chars ∧
    (runLoop [97, 27] (mkExercise [['a', 'b', 'c']] 80 24)).1.end_time_set = true ∧
    main_record [97, 27] (mkExercise [['a', 'b', 'c']] 80 24) 5 = none ∧
    RunResult.cancelled ≠ RunResult.completed := by
  refine ⟨?_, by decide, by decide, by decide, by decide, by decide⟩
  intro keys e d h
  exact ⟨runLoop_cancelled_end_time keys e h, by simp [main_record, h]⟩

theorem cancellation_produces_no_record_witness :
    (runLoop [27] (mkExercise [['a']] 80 24)).2 = RunResult.cancelled ∧
    (runLoop [27] (mkExercise [['a']] 80 24)).1.end_time_set = true ∧
    main_record [27] (mkExercise [['a']] 80 24) 1 = none :=
  ⟨by decide,
   (cancellation_produces_no_record.1 [27] (mkExercise [['a']] 80 24) 1 (by decide)).1,
   (cancellation_produces_no_record.1 [27] (mkExercise [['a']] 80 24) 1 (by decide)).2⟩

/-! ## Claim C5: division guards in `draw_header` and `save_record` -/

/-- C5 (counterexample): with `current_pos = 1` and elapsed time 0, the
speed expression `(current_pos / 5) / (elapsed / 60)` of `draw_header`
divides by zero (`none` = `ZeroDivisionError` raised), and `save_record`'s
`speed_wpm` likewise raises when the duration is 0 — the computations are
not guarded against a zero elapsed-time denominator. -/
theorem speed_division_raises :
    draw_header_stats 1 0 0 = none ∧ save_record_stats 3 4 0 = none := by
  constructor
  · simp [draw_header_stats, pyDiv]
  · simp [save_record_stats, pyDiv]

/-- C5 (amended): the only guard is on `position`: when `position = 0` the
header's stats line is skipped entirely (a neutral placeholder, so
Scenario D at `position = 0` holds), and whenever the elapsed time (resp.
the record's duration) is nonzero no division raises; but for `position > 0`
with elapsed time 0, and for `save_record` with duration 0, the speed
computation raises `ZeroDivisionError`. -/
theorem division_guard_is_position_only :
    (∀ (correct : Nat) (elapsed : ℚ), draw_header_stats 0 correct elapsed = some none) ∧
    (∀ (pos correct : Nat) (elapsed : ℚ), elapsed ≠ 0 →
      draw_header_stats pos correct elapsed ≠ none) ∧
    (∀ (total correct : Nat) (d : ℚ), d ≠ 0 →
      save_record_stats total correct d ≠ none) := by
  refine ⟨?_, ?_, ?_⟩
  · intro correct elapsed
    simp [draw_header_stats]
  · intro pos correct elapsed he
    have h60 : elapsed / 60 ≠ 0 := div_ne_zero he (by norm_num)
    unfold draw_header_stats pyDiv
    by_cases hp : 0 < pos
    · have hq : (pos : ℚ) ≠ 0 := Nat.cast_ne_zero.mpr (Nat.pos_iff_ne_zero.mp hp)
      simp [hp, h60, hq]
    · simp [hp]
  · intro total correct d hd
    have h60 : d / 60 ≠ 0 := div_ne_zero hd (by norm_num)
    unfold save_record_stats pyDiv
    simp [h60]

theorem division_guard_is_position_only_witness :
    draw_header_stats 0 7 0 = some none ∧
    ((1 : ℚ) ≠ 0 ∧ draw_header_stats 3 2 1 ≠ none) ∧
    ((2 : ℚ) ≠ 0 ∧ save_record_stats 3 2 2 ≠ none) :=
  ⟨division_guard_is_position_only.1 7 0,
   ⟨by norm_num, division_guard_is_position_only.2.1 3 2 1 (by norm_num)⟩,
   ⟨by norm_num, division_guard_is_position_only.2.2 3 2 2 (by norm_num)⟩⟩

/-! ## Claim C3: pagination partitions the text

The fold invariant: at every point of the pagination loop, the closed pages'
ranges chain contiguously from offset 0, `current_chars` counts every
consumed character, and closed pages plus the open page reconstruct the
consumed prefix of the text. -/

theorem segsFrom_snoc (p : List Char) :
    ∀ (ps : List (List Char)) (rs : List (Nat × Nat)) (a : Nat),
      segsFrom a ps rs →
      segsFrom a (ps ++ [p])
        (rs ++ [(a + ps.flatten.length, a + ps.flatten.length + p.length)]) := by
  intro ps
  induction ps with
  | nil =>
    intro rs a h
    cases rs with
    | nil => simp [segsFrom]
    | cons r rs => exact absurd h (by simp [segsFrom])
  | cons q ps ih =>
    intro rs a h
    cases rs with
    | nil => exact absurd h (by simp [segsFrom])
    | cons r rs =>
      simp only [segsFrom] at h
      obtain ⟨h1, h2, h3⟩ := h
      have hidx : a + ((q :: ps).flatten).length = r.2 + ps.flatten.length := by
        rw [h2, List.flatten_cons, List.length_append]
        omega
      refine ⟨h1, h2, ?_⟩
      have hrec := ih rs r.2 h3
      rw [hidx]
      exact hrec

theorem segsFrom_length :
    ∀ (ps : List (List Char)) (rs : List (Nat × Nat)) (a : Nat),
      segsFrom a ps rs → ps.length = rs.length := by
  intro ps
  induction ps with
  | nil =>
    intro rs a h
    cases rs with
    | nil => rfl
    | cons r rs => exact absurd h (by simp [segsFrom])
  | cons q ps ih =>
    intro rs a h
    cases rs with
    | nil => exact absurd h (by simp [segsFrom])
    | cons r rs =>
      simp only [segsFrom] at h
      simp [ih rs r.2 h.2.2]

theorem segsFrom_head_start (ps : List (List Char)) (rs : List (Nat × Nat)) (a : Nat)
    (h : segsFrom a ps rs) (hne : rs ≠ []) : (rs.head hne).1 = a := by
  cases rs with
  | nil => exact absurd rfl hne
  | cons r rs =>
    cases ps with
    | nil => exact absurd h (by simp [segsFrom])
    | cons q ps =>
      simp only [segsFrom] at h
      simpa using h.1

theorem segsFrom_getLast_end :
    ∀ (ps : List (List Char)) (rs : List (Nat × Nat)) (a : Nat),
      segsFrom a ps rs → ∀ hne : rs ≠ [],
      (rs.getLast hne).2 = a + ps.flatten.length := by
  intro ps
  induction ps with
  | nil =>
    intro rs a h hne
    cases rs with
    | nil => exact absurd rfl hne
    | cons r rs => exact absurd h (by simp [segsFrom])
  | cons q ps ih =>
    intro rs a h hne
    cases rs with
    | nil => exact absurd rfl hne
    | cons r rs =>
      simp only [segsFrom] at h
      obtain ⟨h1, h2, h3⟩ := h
      cases rs with
      | nil =>
        cases ps with
        | nil =>
          simp [List.getLast, h2]
        | cons q2 ps => exact absurd h3 (by simp [segsFrom])
      | cons r2 rs =>
        rw [List.getLast_cons (by simp)]
        rw [ih (r2 :: rs) r.2 h3 (by simp)]
        rw [h2]
        simp
        omega

theorem segsFrom_slice :
    ∀ (ps : List (List Char)) (rs : List (Nat × Nat)) (a : Nat) (t : List Char),
      segsFrom a ps rs →
      t.drop a = ps.flatten ++ t.drop (a + ps.flatten.length) →
      ∀ (i : Nat) (hi : i < ps.length) (hj : i < rs.length),
        ps.get ⟨i, hi⟩ =
          (t.drop (rs.get ⟨i, hj⟩).1).take ((rs.get ⟨i, hj⟩).2 - (rs.get ⟨i, hj⟩).1) := by
  intro ps
  induction ps with
  | nil =>
    intro rs a t h ht i hi
    exact absurd hi (by simp)
  | cons q ps ih =>
    intro rs a t h ht i hi hj
    cases rs with
    | nil => exact absurd h (by simp [segsFrom])
    | cons r rs =>
      simp only [segsFrom] at h
      obtain ⟨h1, h2, h3⟩ := h
      have hflat : (q :: ps).flatten = q ++ ps.flatten := by simp
      cases i with
      | zero =>
        simp only [List.get]
        rw [h1, h2]
        have htake : (t.drop a).take q.length = q := by
          rw [ht, hflat, List.append_assoc]
          exact List.take_left q _
        have hlen : a + q.length - a = q.length := by omega
        rw [hlen, htake]
      | succ i =>
        have hdrop : t.drop r.2 = ps.flatten ++ t.drop (r.2 + ps.flatten.length) := by
          have e1 : t.drop r.2 = (t.drop a).drop q.length := by
            rw [List.drop_drop, h2, Nat.add_comm]
          rw [e1, ht, hflat, List.append_assoc, List.drop_left]
          have e2 : a + (q ++ ps.flatten).length = r.2 + ps.flatten.length := by
            rw [h2]
            simp
            omega
          rw [e2]
        have := ih rs r.2 t h3 hdrop i (by simpa using hi) (by simpa using hj)
        simpa using this

/-- The loop invariant of the pagination pass. -/
def PagInv (consumed : List (List Char)) (s : PagState) : Prop :=
  segsFrom 0 s.pages s.page_indices ∧
  s.current_chars = s.pages.flatten.length + s.current_page.flatten.length ∧
  s.pages.flatten ++ s.current_page.flatten = consumed.flatten

theorem pagStep_inv (width plc : Nat) (s : PagState) (line : List Char)
    (consumed : List (List Char)) (h : PagInv consumed s) :
    PagInv (consumed ++ [line]) (pagStep width plc s line) := by
  obtain ⟨h1, h2, h3⟩ := h
  unfold pagStep
  split
  · refine ⟨?_, ?_, ?_⟩
    · show segsFrom 0 (s.pages ++ [s.current_page.flatten])
        (s.page_indices ++ [(s.current_chars - s.current_page.flatten.length, s.current_chars)])
      have e1 : s.current_chars - s.current_page.flatten.length = s.pages.flatten.length := by
        omega
      rw [e1, h2]
      simpa using segsFrom_snoc s.current_page.flatten s.pages s.page_indices 0 h1
    · show s.current_chars + line.length
        = (s.pages ++ [s.current_page.flatten]).flatten.length + ([line].flatten).length
      simp only [List.flatten_append, List.flatten_cons, List.flatten_nil,
        List.append_nil, List.length_append]
      omega
    · show (s.pages ++ [s.current_page.flatten]).flatten ++ [line].flatten
        = (consumed ++ [line]).flatten
      simp [h3]
  · refine ⟨h1, ?_, ?_⟩
    · show s.current_chars + line.length
        = s.pages.flatten.length + ((s.current_page ++ [line]).flatten).length
      simp only [List.flatten_append, List.flatten_cons, List.flatten_nil,
        List.append_nil, List.length_append]
      omega
    · show s.pages.flatten ++ (s.current_page ++ [line]).flatten = (consumed ++ [line]).flatten
      simp [← h3]

theorem pagRun_inv (width plc : Nat) :
    ∀ (rest consumed : List (List Char)) (s : PagState),
      PagInv consumed s → PagInv (consumed ++ rest) (pagRun width plc rest s) := by
  intro rest
  induction rest with
  | nil =>
    intro consumed s h
    simpa using h
  | cons line rest ih =>
    intro consumed s h
    have := ih (consumed ++ [line]) (pagStep width plc s line)
      (pagStep_inv width plc s line consumed h)
    simpa using this

theorem pagStep_current_page_ne (width plc : Nat) (s : PagState) (line : List Char) :
    (pagStep width plc s line).current_page ≠ [] := by
  unfold pagStep
  split <;> simp

theorem pagRun_current_page_ne (width plc : Nat) :
    ∀ (rest : List (List Char)) (s : PagState),
      s.current_page ≠ [] → (pagRun width plc rest s).current_page ≠ [] := by
  intro rest
  induction rest with
  | nil => intro s h; exact h
  | cons line rest ih =>
    intro s h
    exact ih (pagStep width plc s line) (pagStep_current_page_ne width plc s line)

theorem pagInit_inv : PagInv [] pagInit := by
  refine ⟨?_, by simp [pagInit], by simp [pagInit]⟩
  simp [pagInit, segsFrom]

/-- C3 (confirmed): for every non-empty reference text (as its list of lines
with terminators kept) and every positive viewport width and any row budget,
the pagination pass yields ranges that chain contiguously and without
overlap from offset 0 to `total_chars`, and the page texts are exactly the
corresponding slices of the text, concatenating back to it. -/
theorem paginate_partitions_text (lines : List (List Char)) (width rows : Nat)
    (_hw : 0 < width) (hl : lines ≠ []) :
    paginateOK lines (paginate width rows lines).1 (paginate width rows lines).2 := by
  have hinv : PagInv lines (pagRun width rows lines pagInit) := by
    simpa using pagRun_inv width rows lines [] pagInit pagInit_inv
  have hne : (pagRun width rows lines pagInit).current_page ≠ [] := by
    cases lines with
    | nil => exact absurd rfl hl
    | cons line rest =>
      exact pagRun_current_page_ne width rows rest (pagStep width rows pagInit line)
        (pagStep_current_page_ne width rows pagInit line)
  obtain ⟨h1, h2, h3⟩ := hinv
  have e1 : (pagRun width rows lines pagInit).current_chars
      - (pagRun width rows lines pagInit).current_page.flatten.length
      = (pagRun width rows lines pagInit).pages.flatten.length := by omega
  have hpag : paginate width rows lines
      = ((pagRun width rows lines pagInit).pages
          ++ [(pagRun width rows lines pagInit).current_page.flatten],
         (pagRun width rows lines pagInit).page_indices
          ++ [((pagRun width rows lines pagInit).current_chars
                - (pagRun width rows lines pagInit).current_page.flatten.length,
               (pagRun width rows lines pagInit).current_chars)]) := by
    unfold paginate pagFinish
    rw [if_neg hne]
  have hsegs : segsFrom 0 (paginate width rows lines).1 (paginate width rows lines).2 := by
    rw [hpag, e1, h2]
    simpa using segsFrom_snoc (pagRun width rows lines pagInit).current_page.flatten
      (pagRun width rows lines pagInit).pages
      (pagRun width rows lines pagInit).page_indices 0 h1
  have hflat : (paginate width rows lines).1.flatten = lines.flatten := by
    rw [hpag]
    simpa using h3
  have hlen : (paginate width rows lines).1.length = (paginate width rows lines).2.length :=
    segsFrom_length _ _ 0 hsegs
  have hpne : (paginate width rows lines).1 ≠ [] := by
    rw [hpag]
    simp
  have hrne : (paginate width rows lines).2 ≠ [] := by
    intro hcon
    rw [hcon] at hlen
    simp at hlen
    exact hpne hlen
  refine ⟨hsegs, hflat, hlen, hrne, ?_, ?_⟩
  · intro h
    refine ⟨segsFrom_head_start _ _ 0 hsegs h, ?_⟩
    rw [segsFrom_getLast_end _ _ 0 hsegs h]
    rw [hflat]
    simp
  · intro i hi hj
    refine segsFrom_slice _ _ 0 lines.flatten hsegs ?_ i hi hj
    rw [hflat]
    simp

theorem paginate_partitions_text_witness :
    (0 : Nat) < 80 ∧ ([['a', 'b', '\n'], ['c']] : List (List Char)) ≠ [] ∧
    paginateOK [['a', 'b', '\n'], ['c']]
      (paginate 80 17 [['a', 'b', '\n'], ['c']]).1
      (paginate 80 17 [['a', 'b', '\n'], ['c']]).2 :=
  ⟨by decide, by decide,
   paginate_partitions_text [['a', 'b', '\n'], ['c']] 80 17 (by decide) (by decide)⟩
